import Mathlib

/-!
Verification development for the bounded asynchronous task queue of
`src/shared_services/task_queue_service.py` (classes `Task` and `TaskQueue`).

Shallow embedding.  The Python code is embedded as follows:

* The `Task` dataclass becomes the structure `Task`.  A Python callable is
  modelled by `PyCallable`: the flag `isCoroutine` is the value of
  `asyncio.iscoroutinefunction(func)`, and `run` maps the stored positional
  and keyword arguments to an abstract `Outcome` — the callable returns
  normally with a value, raises an ordinary `Exception` with a message, or
  raises a cancellation (`asyncio.CancelledError` / `KeyboardInterrupt`)
  with a message.  Argument values are modelled as natural numbers (the
  queue never inspects them).

* `asyncio.Queue` (the standard-library dependency) is modelled from its
  documented CPython semantics by `AQueue`: a `maxsize` (an `int`; any
  value `≤ 0` means unbounded), the list of queued items in FIFO order,
  and the `_unfinished_tasks` counter — incremented by `put`/`put_nowait`,
  decremented by `task_done()`, and `join()` resolves exactly when it is 0.

* A `TaskQueue` object's fields `_queue`, `_worker_running` and
  `_worker_task` become `queue`, `worker_running` and `worker_task`.
  Because the interesting claims are about the interleaving of the
  `_worker` coroutine with `stop_worker`/`start_worker`/producers, the
  state also carries the program counters of the spawned `_worker`
  coroutines (`workers`, a list because `asyncio.create_task` can spawn
  several; `worker_task` is the index of the most recently created one),
  the program counter of an in-flight `stop_worker(wait=True)` call
  (`stopper`), and `execLog`, the observation log of the task ids whose
  callables the worker ran.

* Synchronous code (no `await` inside) is embedded as pure functions;
  each atomic step of the small-step relation `Step` below corresponds to
  one resumption segment of a coroutine between `await` points, which is
  exactly the atomicity granularity of a single-threaded asyncio event
  loop.
-/

namespace HRVibe

/-- Result of invoking a job's callable: normal return, an ordinary
`Exception`, or a cancellation (`asyncio.CancelledError` or
`KeyboardInterrupt`, which `_execute_task` treats alike). -/
inductive Outcome where
  | ok (v : Nat)
  | error (msg : String)
  | cancelled (msg : String)
deriving DecidableEq, Repr

/-- A Python callable as the queue sees it: whether
`asyncio.iscoroutinefunction` holds of it, and what invoking it on given
positional/keyword arguments does. -/
structure PyCallable where
  isCoroutine : Bool
  run : List Nat → List (String × Nat) → Outcome

/-- The `Task` dataclass of `task_queue_service.py`: a callable plus the
arguments it will be invoked with and an optional identifier.  (The
`__post_init__` normalisation of `kwargs=None` to `{}` is reflected by
using a plain list for `kwargs`; every caller in the file constructs
`Task` with an actual dict.) -/
structure Task where
  func : PyCallable
  args : List Nat
  kwargs : List (String × Nat)
  task_id : Option String

/-- Model of `asyncio.Queue`, from the documented CPython semantics:
FIFO item list, `maxsize` (`≤ 0` means unbounded), and the
`_unfinished_tasks` counter driving `join()`. -/
structure AQueue where
  maxsize : Int
  items : List Task
  unfinished : Nat

/-- `Queue.qsize()`. -/
def AQueue.qsize (q : AQueue) : Nat := q.items.length

/-- `Queue.full()`: `False` when `maxsize <= 0`, else `qsize() >= maxsize`. -/
def AQueue.full (q : AQueue) : Bool :=
  if q.maxsize ≤ 0 then false else decide ((q.qsize : Int) ≥ q.maxsize)

/-- `Queue.empty()`. -/
def AQueue.is_empty_q (q : AQueue) : Bool := q.items.isEmpty

/-- `Queue.put_nowait(item)`: raises `QueueFull` (the `Except.error`) when
full, otherwise appends the item and increments `_unfinished_tasks`. -/
def AQueue.put_nowait (q : AQueue) (t : Task) : Except Unit AQueue :=
  if q.full then Except.error ()
  else Except.ok { q with items := q.items ++ [t], unfinished := q.unfinished + 1 }

/-- `Queue.get()` resolving: returns the head item and the queue without
it; `none` while the queue is empty (the getter stays suspended). -/
def AQueue.get? (q : AQueue) : Option (Task × AQueue) :=
  match q.items with
  | [] => none
  | t :: rest => some (t, { q with items := rest })

/-- `Queue.task_done()`: decrements `_unfinished_tasks`.  (CPython raises
`ValueError` when the counter is already 0; in `_worker` that error would
be caught by the blanket `except Exception` and the loop would `continue`
with the counter still 0, which is exactly what saturating subtraction
yields, so the total function is faithful at the call site.) -/
def AQueue.task_done (q : AQueue) : AQueue :=
  { q with unfinished := q.unfinished - 1 }

/-- Program counter of one spawned `_worker` coroutine, one constructor
per suspension point / terminal point:
* `loopTop` — freshly created, about to test `while self._worker_running`;
* `awaitGet` — suspended in `await asyncio.wait_for(self._queue.get(), timeout=1.0)`;
* `executing t` — popped `t` and suspended in `await self._execute_task(t)`;
* `done` — the coroutine has finished (loop exit, `break`, or cancellation). -/
inductive WorkerPC where
  | loopTop
  | awaitGet
  | executing (t : Task)
  | done

/-- Program counter of a `stop_worker(wait=True)` call: not invoked /
suspended in `await self._queue.join()` / returned. -/
inductive StopPC where
  | idle
  | awaitJoin
  | returned
deriving DecidableEq, Repr

/-- State of a `TaskQueue` object together with the coroutines acting on
it (see the module docstring for the field-by-field correspondence). -/
structure TaskQueue where
  queue : AQueue
  worker_running : Bool
  workers : List WorkerPC
  worker_task : Option Nat
  stopper : StopPC
  execLog : List (Option String)

/-- `TaskQueue.__init__(maxsize)`: empty queue, worker not running, no
worker task; no coroutines yet, nothing executed. -/
def TaskQueue.init (maxsize : Int) : TaskQueue :=
  ⟨⟨maxsize, [], 0⟩, false, [], none, StopPC.idle, []⟩

/-- `TaskQueue.qsize()`. -/
def TaskQueue.qsize (s : TaskQueue) : Nat := s.queue.qsize

/-- `TaskQueue.is_full()`. -/
def TaskQueue.is_full (s : TaskQueue) : Bool := s.queue.full

/-- `TaskQueue.is_empty()`. -/
def TaskQueue.is_empty (s : TaskQueue) : Bool := s.queue.is_empty_q

/-- `TaskQueue.put_nowait(func, *args, task_id=None, **kwargs)`: builds
the `Task`, tries `self._queue.put_nowait`, returns `True` on success and
catches `asyncio.QueueFull` returning `False` (the task is discarded). -/
def TaskQueue.put_nowait (s : TaskQueue) (func : PyCallable) (args : List Nat)
    (task_id : Option String) (kwargs : List (String × Nat)) : TaskQueue × Bool :=
  match AQueue.put_nowait s.queue ⟨func, args, kwargs, task_id⟩ with
  | Except.ok q => ({ s with queue := q }, true)
  | Except.error _ => (s, false)

/-- `TaskQueue.put(func, *args, task_id=None, **kwargs)`: builds the
`Task` and `await self._queue.put(task)`.  `none` means the call
suspends because the queue is full (no exception is ever raised; the
suspended producer completes later via the `Step.enqueue` transition once
space frees up); `some` is immediate completion, always returning `True`. -/
def TaskQueue.put (s : TaskQueue) (func : PyCallable) (args : List Nat)
    (task_id : Option String) (kwargs : List (String × Nat)) : Option (TaskQueue × Bool) :=
  if s.queue.full then none
  else
    match AQueue.put_nowait s.queue ⟨func, args, kwargs, task_id⟩ with
    | Except.ok q => some ({ s with queue := q }, true)
    | Except.error _ => none

/-- Where `_execute_task` ran the callable: awaited directly on the event
loop (coroutine functions) or dispatched via `loop.run_in_executor` to a
worker thread (all other callables). -/
inductive ExecContext where
  | eventLoop
  | executorThread
deriving DecidableEq, Repr

/-- How `_execute_task` finished: returned a value (`none` = the Python
`None` returned after an ordinary exception was swallowed), or re-raised
a cancellation. -/
inductive ExecResult where
  | value (v : Option Nat)
  | raised
deriving DecidableEq, Repr

/-- The `task_id_str` local of `_execute_task`. -/
def task_id_str (t : Task) : String :=
  match t.task_id with
  | some i => " (ID: " ++ i ++ ")"
  | none => ""

/-- Observable effect of one `_execute_task` call: execution context of
the callable, result, and the log lines emitted. -/
structure ExecEffect where
  context : ExecContext
  result : ExecResult
  logs : List String
deriving DecidableEq, Repr

/-- `TaskQueue._execute_task(task)`: dispatch on
`asyncio.iscoroutinefunction(task.func)`; invoke the callable with
exactly `task.args` / `task.kwargs`; swallow ordinary exceptions (log
and return `None`); re-raise cancellations after logging. -/
def execute_task (t : Task) : ExecEffect :=
  let ids := task_id_str t
  let ctx := if t.func.isCoroutine then ExecContext.eventLoop else ExecContext.executorThread
  match t.func.run t.args t.kwargs with
  | Outcome.ok v =>
      ⟨ctx, ExecResult.value (some v),
        ["Executing task" ++ ids, "Task" ++ ids ++ " completed successfully"]⟩
  | Outcome.error m =>
      ⟨ctx, ExecResult.value none,
        ["Executing task" ++ ids, "Task" ++ ids ++ " failed with error: " ++ m]⟩
  | Outcome.cancelled m =>
      ⟨ctx, ExecResult.raised,
        ["Executing task" ++ ids, "Task" ++ ids ++ " was cancelled/interrupted: " ++ m]⟩

/-- `TaskQueue.start_worker()`: if `self._worker_running` it only logs a
warning and returns (no state change); otherwise it sets the flag and
`asyncio.create_task(self._worker())` spawns a fresh `_worker` coroutine,
recording it in `_worker_task`.  The whole body is synchronous, hence one
atomic function. -/
def TaskQueue.start_worker (s : TaskQueue) : TaskQueue :=
  if s.worker_running then s
  else
    { s with worker_running := true,
             workers := s.workers ++ [WorkerPC.loopTop],
             worker_task := some s.workers.length }

/-- Effect of `self._worker_task.cancel()` followed by
`await self._worker_task`: the coroutine recorded in `_worker_task` is
driven to completion (if it was already finished, this is a no-op). -/
def cancel_worker_task (s : TaskQueue) : List WorkerPC :=
  match s.worker_task with
  | some i => s.workers.set i WorkerPC.done
  | none => s.workers

/-- Immediate (no-`await`) outcome of entering `stop_worker(wait)`. -/
inductive StopEntry where
  | noopReturn (s : TaskQueue)
  | drainBegin (s : TaskQueue)
  | cancelBegin (s : TaskQueue)

/-- The synchronous entry segment of `TaskQueue.stop_worker(wait)`: when
`self._worker_running` is false it logs a warning and returns at once —
`noopReturn` carries the completely unchanged state, and in particular no
`await` of the queue happens.  Otherwise it clears the flag and then
either suspends in `await self._queue.join()` (`wait=True`) or proceeds
directly to cancelling the worker task (`wait=False`). -/
def TaskQueue.stop_worker_entry (s : TaskQueue) (wait : Bool) : StopEntry :=
  if s.worker_running = false then StopEntry.noopReturn s
  else if wait then
    StopEntry.drainBegin { s with worker_running := false, stopper := StopPC.awaitJoin }
  else
    StopEntry.cancelBegin { s with worker_running := false }

/-- Whether invoking the callable raises a cancellation
(`asyncio.CancelledError` / `KeyboardInterrupt`), the one class of
outcome `_execute_task` re-raises. -/
def isCancelled : Outcome → Bool
  | Outcome.cancelled _ => true
  | _ => false

/-- Which environment actions a trace may contain; the worker coroutine
steps and the continuation of an already-pending `stop_worker` are always
available.  `start` gates new `start_worker()` invocations, `stop` gates
new `stop_worker(wait=True)` invocations, `enq` gates producers
(`put` completions and accepted `put_nowait` calls). -/
structure Acts where
  start : Bool
  stop : Bool
  enq : Bool

/-- All environment actions allowed. -/
def allActs : Acts := ⟨true, true, true⟩

/-- No further `start_worker` invocations (the scenario of a graceful
shutdown: nobody restarts the queue while it is being stopped). -/
def noStart : Acts := ⟨false, true, true⟩

/-- Only the worker coroutine runs (jobs already enqueued, no producers,
no stop/start calls). -/
def workerOnly : Acts := ⟨false, false, false⟩

/-- One atomic event-loop step of the system: one resumption segment of
one coroutine, transcribed from `_worker`, `stop_worker`, `start_worker`,
`put`/`put_nowait` of `task_queue_service.py`. -/
inductive Step (a : Acts) : TaskQueue → TaskQueue → Prop where
  /-- Worker `i` at the top of the loop, flag still set: enter
  `await asyncio.wait_for(self._queue.get(), timeout=1.0)`. -/
  | workerCheckRun (s : TaskQueue) (i : Nat)
      (hw : s.workers.get? i = some WorkerPC.loopTop)
      (hr : s.worker_running = true) :
      Step a s { s with workers := s.workers.set i WorkerPC.awaitGet }
  /-- Worker `i` at the top of the loop, flag cleared: the `while` exits
  and the coroutine finishes. -/
  | workerCheckStop (s : TaskQueue) (i : Nat)
      (hw : s.workers.get? i = some WorkerPC.loopTop)
      (hr : s.worker_running = false) :
      Step a s { s with workers := s.workers.set i WorkerPC.done }
  /-- Worker `i`'s `get` resolves with the head task; it proceeds to
  `await self._execute_task(task)`. -/
  | workerGet (s : TaskQueue) (i : Nat) (t : Task) (q : AQueue)
      (hw : s.workers.get? i = some WorkerPC.awaitGet)
      (hq : s.queue.get? = some (t, q)) :
      Step a s { s with queue := q, workers := s.workers.set i (WorkerPC.executing t) }
  /-- Worker `i`'s `wait_for` times out on an empty queue and the
  `continue` re-tests a cleared flag: the loop exits.  (A timeout with
  the flag still set re-enters `wait_for`, leaving the state unchanged,
  so it needs no transition.) -/
  | workerTimeoutStop (s : TaskQueue) (i : Nat)
      (hw : s.workers.get? i = some WorkerPC.awaitGet)
      (hq : s.queue.items = [])
      (hr : s.worker_running = false) :
      Step a s { s with workers := s.workers.set i WorkerPC.done }
  /-- Worker `i`'s `_execute_task(t)` returns (normal result or swallowed
  ordinary exception): in the same segment the execution is logged,
  `self._queue.task_done()` runs, the `while` condition is re-tested and
  the loop either re-enters `wait_for` or exits. -/
  | workerExecDone (s : TaskQueue) (i : Nat) (t : Task)
      (hw : s.workers.get? i = some (WorkerPC.executing t))
      (hout : isCancelled (t.func.run t.args t.kwargs) = false) :
      Step a s { s with
        queue := s.queue.task_done,
        workers := s.workers.set i
          (if s.worker_running then WorkerPC.awaitGet else WorkerPC.done),
        execLog := s.execLog ++ [t.task_id] }
  /-- Worker `i`'s `_execute_task(t)` re-raises a cancellation: caught by
  `except asyncio.CancelledError` and the loop `break`s (for
  `KeyboardInterrupt` the coroutine is torn down by the same exception);
  either way `task_done()` is never reached. -/
  | workerExecCancelled (s : TaskQueue) (i : Nat) (t : Task)
      (hw : s.workers.get? i = some (WorkerPC.executing t))
      (hout : isCancelled (t.func.run t.args t.kwargs) = true) :
      Step a s { s with workers := s.workers.set i WorkerPC.done,
                        execLog := s.execLog ++ [t.task_id] }
  /-- A producer's insertion completes: an accepted `put_nowait` or a
  (possibly previously suspended) `put` whose wait ended; both run
  `Queue.put_nowait`, which only succeeds on a non-full queue. -/
  | enqueue (s : TaskQueue) (t : Task) (q : AQueue)
      (ha : a.enq = true)
      (hq : AQueue.put_nowait s.queue t = Except.ok q) :
      Step a s { s with queue := q }
  /-- Somebody calls `start_worker()` (a synchronous call, one segment). -/
  | startWorkerStep (s : TaskQueue)
      (ha : a.start = true) :
      Step a s s.start_worker
  /-- Somebody calls `stop_worker(wait=True)` while the flag is set: the
  entry segment clears `self._worker_running` and suspends in
  `await self._queue.join()`. -/
  | stopInvoke (s : TaskQueue)
      (ha : a.stop = true)
      (hs : s.stopper = StopPC.idle)
      (hr : s.worker_running = true) :
      Step a s { s with worker_running := false, stopper := StopPC.awaitJoin }
  /-- Somebody calls `stop_worker` while the flag is clear: it logs a
  warning and returns without touching anything. -/
  | stopInvokeNoop (s : TaskQueue)
      (ha : a.stop = true)
      (hs : s.stopper = StopPC.idle)
      (hr : s.worker_running = false) :
      Step a s { s with stopper := StopPC.returned }
  /-- The pending `stop_worker`'s `join()` resolves — possible exactly
  when `_unfinished_tasks` is 0 — and the call then cancels and awaits
  `self._worker_task` and returns. -/
  | stopJoinDone (s : TaskQueue)
      (hs : s.stopper = StopPC.awaitJoin)
      (hu : s.queue.unfinished = 0) :
      Step a s { s with stopper := StopPC.returned, workers := cancel_worker_task s }

/-- Sample jobs used by concrete witnesses. -/
def okJob (id : String) : Task :=
  ⟨⟨true, fun _ _ => Outcome.ok 0⟩, [], [], some id⟩

/-- Sample job whose callable raises an ordinary exception. -/
def failJob (id : String) : Task :=
  ⟨⟨true, fun _ _ => Outcome.error "boom"⟩, [], [], some id⟩

/-- Sample job whose callable raises a cancellation. -/
def cancelJob (id : String) : Task :=
  ⟨⟨true, fun _ _ => Outcome.cancelled "shutdown"⟩, [], [], some id⟩

/-- Sample synchronous job (a plain function, not a coroutine function). -/
def syncJob (id : String) : Task :=
  ⟨⟨false, fun a _ => Outcome.ok (a.headD 0)⟩, [7], [], some id⟩

/-- What `_execute_task` does with the value `t.func.run t.args t.kwargs`
of the wrapped callable: a normal return is passed through, an ordinary
exception becomes the returned `None`, a cancellation is re-raised. -/
def outcomeResult : Outcome → ExecResult
  | Outcome.ok v => ExecResult.value (some v)
  | Outcome.error _ => ExecResult.value none
  | Outcome.cancelled _ => ExecResult.raised

/-- State with a started, idle worker (suspended in `wait_for(get)`), a
backlog `js` of jobs each counted in `_unfinished_tasks` as `U`, and
`execLog` so far `L`. -/
def midState (maxsize : Int) (js : List Task) (U : Nat) (L : List (Option String)) : TaskQueue :=
  ⟨⟨maxsize, js, U⟩, true, [WorkerPC.awaitGet], some 0, StopPC.idle, L⟩

/-- State right after: construct the queue, enqueue `js` via `put` with
the worker not yet running, then call `start_worker()`. -/
def startState (maxsize : Int) (js : List Task) : TaskQueue :=
  ⟨⟨maxsize, js, js.length⟩, true, [WorkerPC.loopTop], some 0, StopPC.idle, []⟩

/-- Scenario for claim C1: worker started and idle, two jobs just
enqueued (`_unfinished_tasks = 2`), and `stop_worker(wait=True)` invoked
immediately — its entry segment has already cleared `_worker_running`
and it is suspended in `await self._queue.join()`. -/
def s0drain : TaskQueue :=
  ⟨⟨200, [okJob "t1", okJob "t2"], 2⟩, false, [WorkerPC.awaitGet], some 0,
    StopPC.awaitJoin, []⟩

/-- Where the C1 scenario actually goes: the worker drained only the
first job, saw the cleared flag and exited; one job remains unfinished
while `stop_worker` is still suspended in `join()`. -/
def sStuck : TaskQueue :=
  ⟨⟨200, [okJob "t2"], 1⟩, false, [WorkerPC.done], some 0, StopPC.awaitJoin,
    [some "t1"]⟩

/-- Start of the C2 counterexample scenario: fresh queue, one job
enqueued, worker not yet started. -/
def sA : TaskQueue :=
  ⟨⟨10, [okJob "c1"], 1⟩, false, [], none, StopPC.idle, []⟩

/-- Reached state of the C2 counterexample: the worker is still executing
its in-flight job while a graceful stop has already cleared
`_worker_running` and awaits `join()` — the drain phase. -/
def sD : TaskQueue :=
  ⟨⟨10, [], 1⟩, false, [WorkerPC.executing (okJob "c1")], some 0,
    StopPC.awaitJoin, []⟩

/-- A full bounded queue (capacity 2, two pending jobs), used as a
concrete witness input. -/
def sFullW : TaskQueue :=
  ⟨⟨2, [okJob "a", okJob "b"], 2⟩, false, [], none, StopPC.idle, []⟩

/-- An unbounded queue (`maxsize = 0`) already holding three jobs, used
as a concrete witness input. -/
def sUnboundedW : TaskQueue :=
  ⟨⟨0, [okJob "u1", okJob "u2", okJob "u3"], 3⟩, false, [], none, StopPC.idle, []⟩

/-- A running worker about to finish a job that raises a cancellation,
used as a concrete witness input. -/
def sCancelW : TaskQueue :=
  ⟨⟨200, [], 1⟩, true, [WorkerPC.executing (cancelJob "k")], some 0,
    StopPC.idle, []⟩

/-- How many more times a given worker coroutine can still call
`self._queue.task_done()` once `_worker_running` is false: a worker at
the loop top exits at once; a worker waiting for an item or executing one
completes at most the one item it picks up. -/
def drainDecr : WorkerPC → Nat
  | WorkerPC.awaitGet => 1
  | WorkerPC.executing _ => 1
  | _ => 0

/-- Invariant of the stuck graceful stop (claim C1): the flag is cleared,
the stop call is suspended in `join()`, and `_unfinished_tasks` always
strictly exceeds what the single worker can still mark done — so
`join()` can never resolve. -/
def drainInv (s : TaskQueue) : Prop :=
  s.worker_running = false ∧ s.stopper = StopPC.awaitJoin ∧
  ∃ w, s.workers = [w] ∧ 1 + drainDecr w ≤ s.queue.unfinished

/-- The identifier of the job currently held by the worker between its
`get` and its `task_done`, if any. -/
def inflight : WorkerPC → List (Option String)
  | WorkerPC.executing t => [t.task_id]
  | _ => []

/-- FIFO invariant (claim C3): the enqueued identifiers, in order, are
exactly the already-executed ones, then the in-flight one, then the ones
still queued; and every job the worker can be holding or find queued is
one of the originally enqueued jobs. -/
def fifoInv (js : List Task) (s : TaskQueue) : Prop :=
  ∃ w, s.workers = [w] ∧ s.worker_running = true ∧ s.stopper = StopPC.idle ∧
    js.map Task.task_id = s.execLog ++ inflight w ++ s.queue.items.map Task.task_id ∧
    (∀ t, w = WorkerPC.executing t → t ∈ js) ∧
    (∀ t, t ∈ s.queue.items → t ∈ js)

/-- The state produced by one blocking `put` on a fresh queue of
capacity 2 (used by the C6 witness). -/
def sIns : TaskQueue :=
  ⟨⟨2, [⟨(okJob "c").func, [], [], some "c"⟩], 1⟩, false, [], none, StopPC.idle, []⟩

/-! ### Helper lemmas -/

/-- An invariant preserved by every step holds in every reachable state. -/
lemma reach_inv {a : Acts} {P : TaskQueue → Prop}
    (hpres : ∀ s s', P s → Step a s s' → P s') {s0 s : TaskQueue}
    (h0 : P s0) (h : Relation.ReflTransGen (Step a) s0 s) : P s := by
  induction h with
  | refl => exact h0
  | tail _ hstep ih => exact hpres _ _ ih hstep

/-- Looking up a program counter in a one-worker list. -/
lemma get_singleton {w pc : WorkerPC} {i : Nat} (h : [w].get? i = some pc) :
    i = 0 ∧ pc = w := by
  cases i with
  | zero =>
      refine ⟨rfl, ?_⟩
      simpa using h.symm
  | succ n => simp [List.get?] at h

/-- Characterisation of `Queue.full()`. -/
lemma full_iff (q : AQueue) :
    q.full = true ↔ 0 < q.maxsize ∧ (q.maxsize ≤ (q.qsize : Int)) := by
  unfold AQueue.full
  split
  · next h =>
      simp
      omega
  · next h =>
      simp
      omega

/-- A queue strictly below a positive bound — or with no bound at all —
is not full. -/
lemma not_full_of_lt (q : AQueue) (h : (q.qsize : Int) < q.maxsize) :
    q.full = false := by
  unfold AQueue.full
  split
  · rfl
  · simp
    omega

/-- Destructuring a resolved `get`: it pops exactly the head and changes
nothing else. -/
lemma get?_spec {q : AQueue} {t : Task} {q' : AQueue}
    (h : AQueue.get? q = some (t, q')) :
    q.items = t :: q'.items ∧ q'.maxsize = q.maxsize ∧ q'.unfinished = q.unfinished := by
  cases hitems : q.items with
  | nil => simp [AQueue.get?, hitems] at h
  | cons t0 rest =>
      simp [AQueue.get?, hitems] at h
      obtain ⟨rfl, rfl⟩ := h
      exact ⟨rfl, rfl, rfl⟩

/-- Destructuring a successful `Queue.put_nowait`: the queue was not
full, the item went to the tail, `_unfinished_tasks` went up by one. -/
lemma put_nowait_spec {q : AQueue} {t : Task} {q' : AQueue}
    (h : AQueue.put_nowait q t = Except.ok q') :
    q.full = false ∧
    q' = { q with items := q.items ++ [t], unfinished := q.unfinished + 1 } := by
  unfold AQueue.put_nowait at h
  split at h
  · cases h
  · next hfull =>
      cases h
      exact ⟨by simpa using hfull, rfl⟩

/-- `start_worker` never touches the queue itself. -/
lemma start_worker_queue (s : TaskQueue) :
    (TaskQueue.start_worker s).queue = s.queue := by
  unfold TaskQueue.start_worker
  split <;> rfl

/-- A started worker alone drains a backlog of non-cancelling jobs one at
a time, in FIFO order, appending each identifier to the execution log and
marking each done. -/
lemma drain_steps (maxsize : Int) (js : List Task) (U : Nat) (L : List (Option String))
    (h : ∀ t ∈ js, isCancelled (t.func.run t.args t.kwargs) = false) :
    Relation.ReflTransGen (Step workerOnly) (midState maxsize js U L)
      (midState maxsize [] (U - js.length) (L ++ js.map Task.task_id)) := by
  induction js generalizing U L with
  | nil =>
      simpa [midState] using
        Relation.ReflTransGen.refl (a := midState maxsize [] U L)
  | cons t rest ih =>
      have step1 : Step workerOnly (midState maxsize (t :: rest) U L)
          ⟨⟨maxsize, rest, U⟩, true, [WorkerPC.executing t], some 0, StopPC.idle, L⟩ := by
        have hstep := Step.workerGet (a := workerOnly) (midState maxsize (t :: rest) U L)
          0 t ⟨maxsize, rest, U⟩ rfl rfl
        simpa [midState] using hstep
      have step2 : Step workerOnly
          ⟨⟨maxsize, rest, U⟩, true, [WorkerPC.executing t], some 0, StopPC.idle, L⟩
          (midState maxsize rest (U - 1) (L ++ [t.task_id])) := by
        have hstep := Step.workerExecDone (a := workerOnly)
          ⟨⟨maxsize, rest, U⟩, true, [WorkerPC.executing t], some 0, StopPC.idle, L⟩
          0 t rfl (h t (by simp))
        simpa [midState, AQueue.task_done] using hstep
      have tail := ih (fun u hu => h u (by simp [hu])) (U := U - 1) (L := L ++ [t.task_id])
      have e1 : U - 1 - rest.length = U - (rest.length + 1) := by omega
      refine Relation.ReflTransGen.head step1 (Relation.ReflTransGen.head step2 ?_)
      simpa [e1, List.length_cons] using tail

/-- Every worker-only step preserves the FIFO invariant, provided no
enqueued job cancels. -/
lemma fifoInv_pres (js : List Task)
    (h : ∀ t ∈ js, isCancelled (t.func.run t.args t.kwargs) = false) :
    ∀ s s', fifoInv js s → Step workerOnly s s' → fifoInv js s' := by
  rintro s s' ⟨w, hwrk, hrun, hst, hlog, hwmem, hqmem⟩ hstep
  cases hstep with
  | workerCheckRun i hwi hri =>
      rw [hwrk] at hwi
      obtain ⟨hi, hpc⟩ := get_singleton hwi
      subst hi
      subst hpc
      refine ⟨WorkerPC.awaitGet, by simp [hwrk], hrun, hst, ?_, by simp, hqmem⟩
      simpa [inflight] using hlog
  | workerCheckStop i hwi hri => simp [hrun] at hri
  | workerGet i u q' hwi hq =>
      rw [hwrk] at hwi
      obtain ⟨hi, hpc⟩ := get_singleton hwi
      subst hi
      subst hpc
      obtain ⟨hitems, hmax, hunf⟩ := get?_spec hq
      refine ⟨WorkerPC.executing u, by simp [hwrk], hrun, hst, ?_, ?_, ?_⟩
      · rw [hitems] at hlog
        simpa [inflight] using hlog
      · intro t ht
        have ht' : u = t := by
          injection ht
        subst ht'
        exact hqmem u (by rw [hitems]; exact List.mem_cons_self u q'.items)
      · intro t ht
        exact hqmem t (by rw [hitems]; exact List.mem_cons_of_mem _ ht)
  | workerTimeoutStop i hwi hq hri => simp [hrun] at hri
  | workerExecDone i u hwi hout =>
      rw [hwrk] at hwi
      obtain ⟨hi, hpc⟩ := get_singleton hwi
      subst hi
      subst hpc
      refine ⟨WorkerPC.awaitGet, by simp [hwrk, hrun], hrun, hst, ?_, by simp, hqmem⟩
      simpa [inflight, AQueue.task_done, List.append_assoc] using hlog
  | workerExecCancelled i u hwi hout =>
      rw [hwrk] at hwi
      obtain ⟨hi, hpc⟩ := get_singleton hwi
      subst hpc
      have hu : u ∈ js := hwmem u rfl
      simp [h u hu] at hout
  | enqueue u q' ha hq => simp [workerOnly] at ha
  | startWorkerStep ha => simp [workerOnly] at ha
  | stopInvoke ha hs' hr' => simp [workerOnly] at ha
  | stopInvokeNoop ha hs' hr' => simp [workerOnly] at ha
  | stopJoinDone hs' hu => simp [hst] at hs'

/-! ### Claim C3 -/

/-- Claim C3: a backlog of `js` jobs enqueued while the worker is not
running, once the worker is started, is executed one at a time in exactly
enqueue order: there is a run of the worker that drains the queue with
execution log exactly `js`'s identifiers in order, and in every reachable
state the log is an initial segment of that sequence — no reordering, no
skipping, no duplication. -/
theorem C3_fifo (maxsize : Int) (js : List Task)
    (h : ∀ t ∈ js, isCancelled (t.func.run t.args t.kwargs) = false) :
    Relation.ReflTransGen (Step workerOnly) (startState maxsize js)
      (midState maxsize [] 0 (js.map Task.task_id)) ∧
    ∀ s, Relation.ReflTransGen (Step workerOnly) (startState maxsize js) s →
      ∃ r, js.map Task.task_id = s.execLog ++ r := by
  constructor
  · have step0 : Step workerOnly (startState maxsize js) (midState maxsize js js.length []) := by
      have hstep := Step.workerCheckRun (a := workerOnly) (startState maxsize js) 0 rfl rfl
      simpa [startState, midState] using hstep
    have hd := drain_steps maxsize js js.length [] h
    refine Relation.ReflTransGen.head step0 ?_
    simpa using hd
  · intro s hreach
    have h0 : fifoInv js (startState maxsize js) :=
      ⟨WorkerPC.loopTop, rfl, rfl, rfl, by simp [startState, inflight], by simp,
        fun t ht => ht⟩
    obtain ⟨w, hwrk, hrun, hst, hlog, _, _⟩ := reach_inv (fifoInv_pres js h) h0 hreach
    exact ⟨inflight w ++ s.queue.items.map Task.task_id, by
      simpa [List.append_assoc] using hlog⟩

/-- Witness for claim C3 at a concrete two-job backlog (one asynchronous
job, one synchronous job). -/
theorem C3_witness :
    Relation.ReflTransGen (Step workerOnly) (startState 200 [okJob "x", syncJob "s"])
      (midState 200 [] 0 ([okJob "x", syncJob "s"].map Task.task_id)) ∧
    ∀ s, Relation.ReflTransGen (Step workerOnly) (startState 200 [okJob "x", syncJob "s"]) s →
      ∃ r, [okJob "x", syncJob "s"].map Task.task_id = s.execLog ++ r :=
  C3_fifo 200 [okJob "x", syncJob "s"] (by decide)

/-! ### Claim C7 -/

/-- Claim C7: a job whose execution raises a cancellation
(`CancelledError` / `KeyboardInterrupt`) is handled unlike an ordinary
failure: `_execute_task` re-raises instead of swallowing
(`ExecResult.raised`), and the worker's only possible step from that job
is the `except asyncio.CancelledError` `break` — the loop's current
iteration exits to the terminated coroutine, the queue is untouched and
in particular `task_done()` is never called, so the job is not marked
done. -/
theorem C7_cancellation (q : AQueue) (L : List (Option String)) (t : Task)
    (h : isCancelled (t.func.run t.args t.kwargs) = true) :
    (execute_task t).result = ExecResult.raised ∧
    ∀ s', Step workerOnly ⟨q, true, [WorkerPC.executing t], some 0, StopPC.idle, L⟩ s' →
      s' = ⟨q, true, [WorkerPC.done], some 0, StopPC.idle, L ++ [t.task_id]⟩ := by
  constructor
  · obtain ⟨m, hm⟩ : ∃ m, t.func.run t.args t.kwargs = Outcome.cancelled m := by
      cases hrun : t.func.run t.args t.kwargs
      · simp [isCancelled, hrun] at h
      · simp [isCancelled, hrun] at h
      · exact ⟨_, rfl⟩
    simp [execute_task, hm]
  · intro s' hstep
    cases hstep with
    | workerCheckRun i hw hr =>
        obtain ⟨hi, hpc⟩ := get_singleton hw
        simp at hpc
    | workerCheckStop i hw hr => simp at hr
    | workerGet i u q' hw hq =>
        obtain ⟨hi, hpc⟩ := get_singleton hw
        simp at hpc
    | workerTimeoutStop i hw hq hr => simp at hr
    | workerExecDone i u hw hout =>
        obtain ⟨hi, hpc⟩ := get_singleton hw
        obtain rfl : u = t := by
          injection hpc
        rw [h] at hout
        cases hout
    | workerExecCancelled i u hw hout =>
        obtain ⟨hi, hpc⟩ := get_singleton hw
        obtain rfl : u = t := by
          injection hpc
        subst hi
        rfl
    | enqueue u q' ha hq => simp [workerOnly] at ha
    | startWorkerStep ha => simp [workerOnly] at ha
    | stopInvoke ha hs hr => simp [workerOnly] at ha
    | stopInvokeNoop ha hs hr => simp [workerOnly] at ha
    | stopJoinDone hs hu => simp at hs

/-- Witness for claim C7 at a concrete cancelled job: its execution
re-raises, and the worker's unique step leaves `_unfinished_tasks` at 1
(not marked done) with the loop terminated. -/
theorem C7_witness :
    (execute_task (cancelJob "k")).result = ExecResult.raised ∧
    ∀ s', Step workerOnly sCancelW s' →
      s' = ⟨⟨200, [], 1⟩, true, [WorkerPC.done], some 0, StopPC.idle, [some "k"]⟩ :=
  C7_cancellation ⟨200, [], 1⟩ [] (cancelJob "k") (by decide)

/-! ### Claim C4 -/

/-- Claim C4: a job whose callable raises an ordinary exception is
caught: `_execute_task` returns the Python `None` instead of re-raising,
logs the failure with the job's identifier, and the worker's only
possible step marks the job done (`task_done`) and continues to wait for
the next job; consequently (last conjunct) a backlog headed by the
failing job is still drained completely and in order, so every
subsequently enqueued job executes. -/
theorem C4_error_isolated (t : Task) (m : String) (q : AQueue) (L : List (Option String))
    (h : t.func.run t.args t.kwargs = Outcome.error m) :
    (execute_task t).result = ExecResult.value none ∧
    (execute_task t).logs = ["Executing task" ++ task_id_str t,
      "Task" ++ task_id_str t ++ " failed with error: " ++ m] ∧
    (∀ s', Step workerOnly ⟨q, true, [WorkerPC.executing t], some 0, StopPC.idle, L⟩ s' →
      s' = ⟨q.task_done, true, [WorkerPC.awaitGet], some 0, StopPC.idle, L ++ [t.task_id]⟩) ∧
    (∀ js maxsize, (∀ u ∈ js, isCancelled (u.func.run u.args u.kwargs) = false) →
      Relation.ReflTransGen (Step workerOnly)
        (midState maxsize (t :: js) (js.length + 1) [])
        (midState maxsize [] 0 ((t :: js).map Task.task_id))) := by
  refine ⟨by simp [execute_task, h], by simp [execute_task, h], ?_, ?_⟩
  · intro s' hstep
    cases hstep with
    | workerCheckRun i hw hr =>
        obtain ⟨hi, hpc⟩ := get_singleton hw
        simp at hpc
    | workerCheckStop i hw hr => simp at hr
    | workerGet i u q' hw hq =>
        obtain ⟨hi, hpc⟩ := get_singleton hw
        simp at hpc
    | workerTimeoutStop i hw hq hr => simp at hr
    | workerExecDone i u hw hout =>
        obtain ⟨hi, hpc⟩ := get_singleton hw
        obtain rfl : u = t := by
          injection hpc
        subst hi
        rfl
    | workerExecCancelled i u hw hout =>
        obtain ⟨hi, hpc⟩ := get_singleton hw
        obtain rfl : u = t := by
          injection hpc
        rw [h] at hout
        simp [isCancelled] at hout
    | enqueue u q' ha hq => simp [workerOnly] at ha
    | startWorkerStep ha => simp [workerOnly] at ha
    | stopInvoke ha hs hr => simp [workerOnly] at ha
    | stopInvokeNoop ha hs hr => simp [workerOnly] at ha
    | stopJoinDone hs hu => simp at hs
  · intro js maxsize hjs
    have hall : ∀ u ∈ t :: js, isCancelled (u.func.run u.args u.kwargs) = false := by
      intro u hu
      rcases List.mem_cons.mp hu with rfl | hu'
      · simp [isCancelled, h]
      · exact hjs u hu'
    have hd := drain_steps maxsize (t :: js) (js.length + 1) [] hall
    simpa [List.length_cons] using hd

/-- Witness for claim C4 at a concrete failing job followed by a
succeeding one: the failure is swallowed and logged with the identifier,
the worker continues, and both jobs execute in order. -/
theorem C4_witness :
    (execute_task (failJob "a")).result = ExecResult.value none ∧
    (execute_task (failJob "a")).logs = ["Executing task (ID: a)",
      "Task (ID: a) failed with error: boom"] ∧
    (∀ s', Step workerOnly
        ⟨⟨200, [], 2⟩, true, [WorkerPC.executing (failJob "a")], some 0, StopPC.idle, []⟩ s' →
      s' = ⟨AQueue.task_done ⟨200, [], 2⟩, true, [WorkerPC.awaitGet], some 0, StopPC.idle,
        [some "a"]⟩) ∧
    (∀ js maxsize, (∀ u ∈ js, isCancelled (u.func.run u.args u.kwargs) = false) →
      Relation.ReflTransGen (Step workerOnly)
        (midState maxsize (failJob "a" :: js) (js.length + 1) [])
        (midState maxsize [] 0 ((failJob "a" :: js).map Task.task_id))) := by
  have hw := C4_error_isolated (failJob "a") "boom" ⟨200, [], 2⟩ [] rfl
  exact ⟨hw.1, hw.2.1, hw.2.2.1, hw.2.2.2⟩

/-! ### Claim C5 -/

/-- Claim C5: for every queue whose pending-job count equals its
capacity (a positive capacity — by claim C10 a `maxsize ≤ 0` queue is
unbounded, i.e. has no capacity), `put_nowait` returns `False`
immediately without suspending (the model function is total and
immediate) and without raising, and the rejected job is not inserted:
the returned state is exactly the input state.  Below capacity,
`put_nowait` appends the job at the tail and returns `True`. -/
theorem C5_put_nowait_capacity (s : TaskQueue) (func : PyCallable)
    (args : List Nat) (task_id : Option String) (kwargs : List (String × Nat)) :
    (0 < s.queue.maxsize → (s.queue.qsize : Int) = s.queue.maxsize →
      TaskQueue.put_nowait s func args task_id kwargs = (s, false)) ∧
    ((s.queue.qsize : Int) < s.queue.maxsize →
      TaskQueue.put_nowait s func args task_id kwargs =
        ({ s with queue := { s.queue with
            items := s.queue.items ++ [⟨func, args, kwargs, task_id⟩],
            unfinished := s.queue.unfinished + 1 } }, true)) := by
  constructor
  · intro hpos hsz
    have hfull : s.queue.full = true := (full_iff s.queue).mpr ⟨hpos, le_of_eq hsz.symm⟩
    simp [TaskQueue.put_nowait, AQueue.put_nowait, hfull]
  · intro hlt
    have hfull : s.queue.full = false := not_full_of_lt s.queue hlt
    simp [TaskQueue.put_nowait, AQueue.put_nowait, hfull]

/-- Witness for claim C5 at a concrete full queue of capacity 2: the
rejected job leaves the state untouched and the call reports `False`. -/
theorem C5_witness :
    TaskQueue.put_nowait sFullW (okJob "c").func [] (some "c") [] = (sFullW, false) :=
  (C5_put_nowait_capacity sFullW (okJob "c").func [] (some "c") []).1
    (by decide) (by decide)

/-! ### Claim C8 -/

/-- Claim C8: `_execute_task` dispatches on the kind of the wrapped
callable — a coroutine function is awaited on the event loop, any other
callable goes through `loop.run_in_executor` to a worker thread — and in
both cases the callable is invoked with exactly the positional and
keyword arguments stored at enqueue time (the result is fully determined
by `func.run args kwargs`; in particular a normal return of either kind
of job is passed through to completion).  The last conjunct ties the
stored arguments to enqueue time: an accepted `put_nowait` appends
precisely the task `⟨func, args, kwargs, task_id⟩`. -/
theorem C8_dispatch (func : PyCallable) (args : List Nat)
    (task_id : Option String) (kwargs : List (String × Nat)) (s : TaskQueue) :
    (execute_task ⟨func, args, kwargs, task_id⟩).context =
      (if func.isCoroutine then ExecContext.eventLoop else ExecContext.executorThread) ∧
    (execute_task ⟨func, args, kwargs, task_id⟩).result = outcomeResult (func.run args kwargs) ∧
    (s.queue.full = false →
      (TaskQueue.put_nowait s func args task_id kwargs).1.queue.items =
        s.queue.items ++ [⟨func, args, kwargs, task_id⟩]) := by
  refine ⟨?_, ?_, ?_⟩
  · cases hrun : func.run args kwargs <;> simp [execute_task, hrun]
  · cases hrun : func.run args kwargs <;> simp [execute_task, outcomeResult, hrun]
  · intro hfull
    simp [TaskQueue.put_nowait, AQueue.put_nowait, hfull]

/-- Witness for claim C8 at a concrete synchronous job: dispatched to the
executor thread, invoked with the stored argument `[7]`, runs to
completion with its value, and enqueue stores exactly those arguments. -/
theorem C8_witness :
    (execute_task (syncJob "s")).context = ExecContext.executorThread ∧
    (execute_task (syncJob "s")).result = ExecResult.value (some 7) ∧
    (TaskQueue.put_nowait (TaskQueue.init 200) (syncJob "s").func [7]
        (some "s") []).1.queue.items = [⟨(syncJob "s").func, [7], [], some "s"⟩] := by
  have h := C8_dispatch (syncJob "s").func [7] (some "s") [] (TaskQueue.init 200)
  exact ⟨h.1, h.2.1, h.2.2 rfl⟩

/-! ### Claim C9 -/

/-- Claim C9: calling `stop_worker` (either mode) on a queue whose worker
is not running returns immediately along the warning branch: no `await`
of the queue is performed (the entry segment completes with
`noopReturn`), no exception is raised, and the state — pending jobs,
worker flag, worker task — is returned completely unchanged. -/
theorem C9_stop_noop (s : TaskQueue) (wait : Bool) (h : s.worker_running = false) :
    TaskQueue.stop_worker_entry s wait = StopEntry.noopReturn s := by
  simp [TaskQueue.stop_worker_entry, h]

/-- Witness for claim C9 at a freshly constructed queue. -/
theorem C9_witness :
    TaskQueue.stop_worker_entry (TaskQueue.init 200) true =
      StopEntry.noopReturn (TaskQueue.init 200) :=
  C9_stop_noop (TaskQueue.init 200) true rfl

/-- Every step of the full system keeps a positively-bounded queue within
its capacity. -/
lemma capInv_pres (C : Int) (hC : 0 < C) :
    ∀ s s', (s.queue.maxsize = C ∧ (s.queue.items.length : Int) ≤ C) →
      Step allActs s s' → (s'.queue.maxsize = C ∧ (s'.queue.items.length : Int) ≤ C) := by
  rintro s s' ⟨hm, hlen⟩ hstep
  cases hstep with
  | workerCheckRun i hw hr => exact ⟨hm, hlen⟩
  | workerCheckStop i hw hr => exact ⟨hm, hlen⟩
  | workerGet i u q' hw hq =>
      obtain ⟨hitems, hmax, hunf⟩ := get?_spec hq
      refine ⟨?_, ?_⟩
      · show q'.maxsize = C
        rw [hmax]
        exact hm
      · show (q'.items.length : Int) ≤ C
        rw [hitems] at hlen
        simp [List.length_cons] at hlen
        omega
  | workerTimeoutStop i hw hq hr => exact ⟨hm, hlen⟩
  | workerExecDone i u hw hout => exact ⟨hm, hlen⟩
  | workerExecCancelled i u hw hout => exact ⟨hm, hlen⟩
  | enqueue u q' ha hq =>
      obtain ⟨hfull, rfl⟩ := put_nowait_spec hq
      refine ⟨hm, ?_⟩
      have hnot : ¬(0 < s.queue.maxsize ∧ s.queue.maxsize ≤ (s.queue.qsize : Int)) := by
        rw [← full_iff]
        simp [hfull]
      simp [AQueue.qsize] at hnot
      simp [List.length_append]
      omega
  | startWorkerStep ha =>
      exact ⟨by rw [start_worker_queue]; exact hm, by rw [start_worker_queue]; exact hlen⟩
  | stopInvoke ha hs hr => exact ⟨hm, hlen⟩
  | stopInvokeNoop ha hs hr => exact ⟨hm, hlen⟩
  | stopJoinDone hs hu => exact ⟨hm, hlen⟩

/-! ### Claim C6 -/

/-- Claim C6: for a queue constructed with positive capacity `C`, the
number of pending jobs never exceeds `C` under any sequence of `put`,
`put_nowait`, worker, start and stop operations; a `put` on a full queue
suspends — it completes with no error and will only insert once space
frees up (the model's `put` has no error case at all, `none` is the
suspended call); and an immediately completing `put` inserts exactly one
job, increasing the queue length by exactly one and returning `True`. -/
theorem C6_capacity_bound (C : Int) (hC : 0 < C) :
    (∀ s, Relation.ReflTransGen (Step allActs) (TaskQueue.init C) s →
      (s.queue.items.length : Int) ≤ C) ∧
    (∀ s func args task_id kwargs, TaskQueue.is_full s = true →
      TaskQueue.put s func args task_id kwargs = none) ∧
    (∀ s func args task_id kwargs s' b,
      TaskQueue.put s func args task_id kwargs = some (s', b) →
      s'.queue.items.length = s.queue.items.length + 1 ∧ b = true) := by
  refine ⟨?_, ?_, ?_⟩
  · intro s hreach
    have h0 : (TaskQueue.init C).queue.maxsize = C ∧
        (((TaskQueue.init C).queue.items.length : Int) ≤ C) := by
      constructor
      · rfl
      · simp [TaskQueue.init]
        omega
    exact (reach_inv (capInv_pres C hC) h0 hreach).2
  · intro s func args task_id kwargs hfull
    rw [TaskQueue.is_full] at hfull
    simp [TaskQueue.put, hfull]
  · intro s func args task_id kwargs s' b hput
    unfold TaskQueue.put at hput
    split at hput
    · cases hput
    · next hfull =>
        have hfull' : s.queue.full = false := by
          simpa using hfull
        simp [AQueue.put_nowait, hfull'] at hput
        obtain ⟨rfl, rfl⟩ := hput
        simp

/-- Witness for claim C6: a capacity-2 queue starts within bound, a full
capacity-2 queue suspends `put`, and a completed `put` on the fresh
queue grew it by exactly one. -/
theorem C6_witness :
    ((TaskQueue.init 2).queue.items.length : Int) ≤ 2 ∧
    TaskQueue.put sFullW (okJob "c").func [] (some "c") [] = none ∧
    sIns.queue.items.length = (TaskQueue.init 2).queue.items.length + 1 := by
  have h := C6_capacity_bound 2 (by decide)
  refine ⟨h.1 _ Relation.ReflTransGen.refl,
    h.2.1 sFullW (okJob "c").func [] (some "c") [] (by decide), ?_⟩
  exact (h.2.2 (TaskQueue.init 2) (okJob "c").func [] (some "c") [] sIns true rfl).1

/-! ### Claim C1 -/

/-- Every step available during an in-flight graceful stop (no restart)
preserves the stuck-drain invariant. -/
lemma drainInv_pres :
    ∀ s s', drainInv s → Step noStart s s' → drainInv s' := by
  rintro s s' ⟨hrn, hstp, w, hwrk, hcnt⟩ hstep
  cases hstep with
  | workerCheckRun i hwi hri => simp [hrn] at hri
  | workerCheckStop i hwi hri =>
      rw [hwrk] at hwi
      obtain ⟨hi, hpc⟩ := get_singleton hwi
      subst hi
      subst hpc
      exact ⟨hrn, hstp, WorkerPC.done, by simp [hwrk], by simpa [drainDecr] using hcnt⟩
  | workerGet i u q' hwi hq =>
      rw [hwrk] at hwi
      obtain ⟨hi, hpc⟩ := get_singleton hwi
      subst hi
      subst hpc
      obtain ⟨hitems, hmax, hunf⟩ := get?_spec hq
      refine ⟨hrn, hstp, WorkerPC.executing u, by simp [hwrk], ?_⟩
      rw [hunf]
      simpa [drainDecr] using hcnt
  | workerTimeoutStop i hwi hq hri =>
      rw [hwrk] at hwi
      obtain ⟨hi, hpc⟩ := get_singleton hwi
      subst hi
      subst hpc
      refine ⟨hrn, hstp, WorkerPC.done, by simp [hwrk], ?_⟩
      simp [drainDecr] at hcnt ⊢
      omega
  | workerExecDone i u hwi hout =>
      rw [hwrk] at hwi
      obtain ⟨hi, hpc⟩ := get_singleton hwi
      subst hi
      subst hpc
      refine ⟨hrn, hstp, WorkerPC.done, by simp [hwrk, hrn], ?_⟩
      simp [drainDecr] at hcnt ⊢
      simp [AQueue.task_done]
      omega
  | workerExecCancelled i u hwi hout =>
      rw [hwrk] at hwi
      obtain ⟨hi, hpc⟩ := get_singleton hwi
      subst hi
      subst hpc
      refine ⟨hrn, hstp, WorkerPC.done, by simp [hwrk], ?_⟩
      simp [drainDecr] at hcnt ⊢
      omega
  | enqueue u q' ha hq =>
      obtain ⟨hfull, rfl⟩ := put_nowait_spec hq
      refine ⟨hrn, hstp, w, hwrk, ?_⟩
      simp
      omega
  | startWorkerStep ha => simp [noStart] at ha
  | stopInvoke ha hs hr => simp [hrn] at hr
  | stopInvokeNoop ha hs hr => simp [hstp] at hs
  | stopJoinDone hs hu =>
      rw [hu] at hcnt
      omega

/-- Claim C1 (refuted — the code has a bug here): with a running worker
idle on the queue, two pending jobs, and `stop_worker(wait=True)` just
invoked (state `s0drain`), the graceful stop never returns: because the
entry segment clears `_worker_running` before awaiting `join()`, the
worker exits after completing at most one more job, so
`_unfinished_tasks` never reaches 0 and `join()` never resolves — in
every state reachable without a restart the stop call is still pending
(first conjunct), and the concrete schedule of the second conjunct
reaches the stuck state `sStuck`: worker terminated, one job still
queued, stop still waiting.  This contradicts the claim (and the
function's own docstring) that the backlog is fully drained and the call
returns. -/
theorem C1_graceful_stop_deadlock :
    (∀ s, Relation.ReflTransGen (Step noStart) s0drain s → s.stopper ≠ StopPC.returned) ∧
    Relation.ReflTransGen (Step noStart) s0drain sStuck := by
  constructor
  · intro s hreach
    have h0 : drainInv s0drain :=
      ⟨rfl, rfl, WorkerPC.awaitGet, rfl, by simp [s0drain, drainDecr]⟩
    have hinv : drainInv s := reach_inv drainInv_pres h0 hreach
    rw [hinv.2.1]
    simp
  · have step1 : Step noStart s0drain
        ⟨⟨200, [okJob "t2"], 2⟩, false, [WorkerPC.executing (okJob "t1")], some 0,
          StopPC.awaitJoin, []⟩ := by
      have hstep := Step.workerGet (a := noStart) s0drain 0 (okJob "t1")
        ⟨200, [okJob "t2"], 2⟩ rfl rfl
      simpa [s0drain] using hstep
    have step2 : Step noStart
        ⟨⟨200, [okJob "t2"], 2⟩, false, [WorkerPC.executing (okJob "t1")], some 0,
          StopPC.awaitJoin, []⟩ sStuck := by
      have hstep := Step.workerExecDone (a := noStart)
        ⟨⟨200, [okJob "t2"], 2⟩, false, [WorkerPC.executing (okJob "t1")], some 0,
          StopPC.awaitJoin, []⟩ 0 (okJob "t1") rfl rfl
      simpa [sStuck, AQueue.task_done] using hstep
    exact Relation.ReflTransGen.head step1
      (Relation.ReflTransGen.head step2 Relation.ReflTransGen.refl)

/-- Witness for claim C1's theorem at the scenario state itself. -/
theorem C1_witness : s0drain.stopper ≠ StopPC.returned :=
  C1_graceful_stop_deadlock.1 s0drain Relation.ReflTransGen.refl

/-! ### Claim C2 -/

/-- Counterexample to claim C2 as stated: the drain state `sD` is
reachable (start the worker, let it pick up the one job, then invoke the
graceful stop while the job is executing); in `sD` a worker loop is still
active — program counter `executing`, not finished — yet
`start_worker()` is not a no-op there: `_worker_running` is already
`false` during the drain, so the guard passes and a second `_worker`
loop is created while the first is still alive. -/
theorem C2_counterexample :
    Relation.ReflTransGen (Step allActs) sA sD ∧
    sD.workers = [WorkerPC.executing (okJob "c1")] ∧
    sD.worker_running = false ∧
    TaskQueue.start_worker sD =
      { sD with worker_running := true,
                workers := [WorkerPC.executing (okJob "c1"), WorkerPC.loopTop],
                worker_task := some 1 } := by
  refine ⟨?_, rfl, rfl, rfl⟩
  have h1 : Step allActs sA
      ⟨⟨10, [okJob "c1"], 1⟩, true, [WorkerPC.loopTop], some 0, StopPC.idle, []⟩ := by
    have hstep := Step.startWorkerStep (a := allActs) sA rfl
    simpa [sA, TaskQueue.start_worker] using hstep
  have h2 : Step allActs
      ⟨⟨10, [okJob "c1"], 1⟩, true, [WorkerPC.loopTop], some 0, StopPC.idle, []⟩
      ⟨⟨10, [okJob "c1"], 1⟩, true, [WorkerPC.awaitGet], some 0, StopPC.idle, []⟩ := by
    have hstep := Step.workerCheckRun (a := allActs)
      ⟨⟨10, [okJob "c1"], 1⟩, true, [WorkerPC.loopTop], some 0, StopPC.idle, []⟩ 0 rfl rfl
    simpa using hstep
  have h3 : Step allActs
      ⟨⟨10, [okJob "c1"], 1⟩, true, [WorkerPC.awaitGet], some 0, StopPC.idle, []⟩
      ⟨⟨10, [], 1⟩, true, [WorkerPC.executing (okJob "c1")], some 0, StopPC.idle, []⟩ := by
    have hstep := Step.workerGet (a := allActs)
      ⟨⟨10, [okJob "c1"], 1⟩, true, [WorkerPC.awaitGet], some 0, StopPC.idle, []⟩
      0 (okJob "c1") ⟨10, [], 1⟩ rfl rfl
    simpa using hstep
  have h4 : Step allActs
      ⟨⟨10, [], 1⟩, true, [WorkerPC.executing (okJob "c1")], some 0, StopPC.idle, []⟩ sD := by
    have hstep := Step.stopInvoke (a := allActs)
      ⟨⟨10, [], 1⟩, true, [WorkerPC.executing (okJob "c1")], some 0, StopPC.idle, []⟩
      rfl rfl rfl
    simpa [sD] using hstep
  exact Relation.ReflTransGen.head h1 (Relation.ReflTransGen.head h2
    (Relation.ReflTransGen.head h3 (Relation.ReflTransGen.head h4
      Relation.ReflTransGen.refl)))

/-- Claim C2, amended: calling `start_worker` while `_worker_running` is
`true` is a no-op that does not start a second loop (the state is
completely unchanged).  During a graceful stop's drain, however, the
flag is already `false` while the old loop may still be finishing its
in-flight job, and `start_worker` then does start a second loop (see the
counterexample). -/
theorem C2_amended (s : TaskQueue) (h : s.worker_running = true) :
    TaskQueue.start_worker s = s := by
  simp [TaskQueue.start_worker, h]

/-- Witness for the amended claim C2 at a concrete running-worker state. -/
theorem C2_witness :
    TaskQueue.start_worker (midState 10 [] 0 []) = midState 10 [] 0 [] :=
  C2_amended (midState 10 [] 0 []) rfl

/-! ### Claim C10 -/

/-- Claim C10: a queue constructed with `maxsize ≤ 0` is unbounded —
`is_full()` always returns `False`, `put_nowait` always accepts
(returns `True`), and `put` never suspends for capacity (it completes
immediately), whatever the pending jobs are. -/
theorem C10_unbounded (s : TaskQueue) (func : PyCallable) (args : List Nat)
    (task_id : Option String) (kwargs : List (String × Nat))
    (h : s.queue.maxsize ≤ 0) :
    TaskQueue.is_full s = false ∧
    (TaskQueue.put_nowait s func args task_id kwargs).2 = true ∧
    (TaskQueue.put s func args task_id kwargs).isSome = true := by
  have hfull : s.queue.full = false := by
    unfold AQueue.full
    simp [h]
  refine ⟨?_, ?_, ?_⟩
  · simpa [TaskQueue.is_full] using hfull
  · simp [TaskQueue.put_nowait, AQueue.put_nowait, hfull]
  · simp [TaskQueue.put, AQueue.put_nowait, hfull]

/-- Witness for claim C10 at a concrete `maxsize = 0` queue already
holding three jobs. -/
theorem C10_witness :
    TaskQueue.is_full sUnboundedW = false ∧
    (TaskQueue.put_nowait sUnboundedW (okJob "u4").func [] (some "u4") []).2 = true ∧
    (TaskQueue.put sUnboundedW (okJob "u4").func [] (some "u4") []).isSome = true :=
  C10_unbounded sUnboundedW (okJob "u4").func [] (some "u4") [] (by decide)

end HRVibe
